import Mathlib

/-!
Verification of the idle-first pod selector and its replica status store
(faas-netes fork: pkg/k8s/pod_status.go, pkg/k8s/idle_first_selector.go,
pkg/k8s/pod_status_updater.go, pkg/handlers/pod_status.go).

The store is a `sync.Map` from the composite key `podName + "-" + podIP` to a
`PodStatus` record.  We embed it as a list of records in which the key of each
record is derived from its fields (every Go `Store` call uses
`createKey(podName, podIP)` and stores a record whose `PodName`/`PodIP` fields
are those same arguments, so the key is always recomputable from the record).
`KeysNodup` states the key-uniqueness that `sync.Map` guarantees.

Impure ingredients of the Go code are handled as follows: `time.Now`
(the `Timestamp` field) and the Kubernetes-client lookups (`PodUID`,
`refreshAddresses`, `checkPodAvailable`) are outside the pure model; the
liveness probe and the random pick of the selector are passed in as oracle
parameters.  `pod_status.go` contains three concatenated revisions of the
file; the embedding follows the final revision of each function (the one with
the `reset` command and the nil-guard on the busy branch), and
`PruneByAddresses` follows the pure 4-argument revision that the embedded
selector calls.

The Go `Set` dereferences `*maxInflight` without a nil check when the key is
missing; a nil ceiling there is a runtime panic, which the embedding models by
returning `none` (`set` returns `some` exactly when the Go call returns).
-/

namespace FaasNetes

/-- Replica record, from `PodStatus` in pkg/k8s/pod_status.go (final revision).
`Timestamp` and `PodUID` are impure (wall clock / Kubernetes client) and are
not part of the pure model. -/
structure PodStatus where
  podName : String
  status : String
  podIP : String
  function : String
  nspace : String
  activeConnections : Int
  maxInflight : Option Int
deriving DecidableEq, Repr

/-- `createKey` from pod_status.go: composite key `podName + "-" + podIP`. -/
def createKey (podName podIP : String) : String :=
  podName ++ "-" ++ podIP

/-- The key under which a record is stored (see the module comment: every Go
`Store` site stores the record under `createKey` of its own fields). -/
def keyOf (e : PodStatus) : String :=
  createKey e.podName e.podIP

/-- `sync.Map.Load` on the embedded store. -/
def load : List PodStatus → String → Option PodStatus
  | [], _ => none
  | e :: es, k => if keyOf e = k then some e else load es k

/-- `sync.Map.Store`: replace the record with the same key, else append. -/
def storeEntry : List PodStatus → PodStatus → List PodStatus
  | [], r => [r]
  | e :: es, r => if keyOf e = keyOf r then r :: es else e :: storeEntry es r

/-- Key-uniqueness invariant of the underlying `sync.Map`. -/
def KeysNodup (c : List PodStatus) : Prop :=
  (c.map keyOf).Nodup

/-- The at-capacity test of `TryMarkPodBusy`:
`podStatus.MaxInflight != nil && podStatus.ActiveConnections >= *podStatus.MaxInflight`. -/
def atLimit (ps : PodStatus) : Bool :=
  match ps.maxInflight with
  | some m => decide (ps.activeConnections ≥ m)
  | none => false

/-- `PodStatusCache.TryMarkPodBusy` from pod_status.go.  The mutating lines of
the Go function are commented out in the source, so it only reads: the store
is returned unchanged in every branch. -/
def tryMarkPodBusy (c : List PodStatus) (podName podIP : String) :
    Bool × List PodStatus :=
  match load c (createKey podName podIP) with
  | none => (false, c)
  | some ps =>
    if ps.status == "busy" || atLimit ps then (false, c) else (true, c)

/-- The found-in-cache branch of `PodStatusCache.Set` (final revision):
nil-fill of the ceiling, then the busy / idle / reset / verbatim cases.
The stored record takes the ARGUMENT `maxInflight`, not the filled one. -/
def setExisting (current : PodStatus) (podName status podIP function nspace : String)
    (maxInflight : Option Int) : PodStatus :=
  let currentMax : Option Int :=
    match current.maxInflight with
    | none => maxInflight
    | some m => some m
  let acStatus : Int × String :=
    if status = "busy" then
      let ac := current.activeConnections + 1
      match maxInflight, currentMax with
      | some _, some m => (ac, if ac ≥ m then "busy" else "idle")
      | _, _ => (ac, "idle")
    else if status = "idle" then
      (max (current.activeConnections - 1) 0, "idle")
    else if status = "reset" then
      (0, "idle")
    else
      (current.activeConnections, status)
  { podName := podName, status := acStatus.2, podIP := podIP,
    function := function, nspace := nspace,
    activeConnections := acStatus.1, maxInflight := maxInflight }

/-- The not-found branch of `PodStatusCache.Set`: a fresh record with zero
connections whose status is derived from the (dereferenced) ceiling. -/
def setMissing (podName podIP function nspace : String) (m : Int) : PodStatus :=
  { podName := podName, status := if (0 : Int) ≥ m then "busy" else "idle",
    podIP := podIP, function := function, nspace := nspace,
    activeConnections := 0, maxInflight := some m }

/-- `PodStatusCache.Set` (final revision).  Returns `none` exactly when the Go
code panics: on a missing key it evaluates `0 >= *maxInflight`, dereferencing
the `maxInflight` pointer with no nil check. -/
def set (c : List PodStatus) (podName status podIP function nspace : String)
    (maxInflight : Option Int) : Option (List PodStatus) :=
  match load c (createKey podName podIP) with
  | some current =>
    some (storeEntry c (setExisting current podName status podIP function nspace maxInflight))
  | none =>
    match maxInflight with
    | some m => some (storeEntry c (setMissing podName podIP function nspace m))
    | none => none

/-- `PodStatusCache.GetByFunction` (pure revision): all records of a function. -/
def getByFunction (c : List PodStatus) (function nspace : String) : List PodStatus :=
  c.filter (fun e => e.function == function && e.nspace == nspace)

/-- `FunctionLookup.MarkPodBusy` from pod_status_updater.go: if the record
exists, `Set(busy)` with the function, namespace and ceiling of the record;
always returns a nil error.  The inner `none` arm is unreachable (the key was
just loaded). -/
def markPodBusy (c : List PodStatus) (podName podIP : String) :
    Option String × List PodStatus :=
  match load c (createKey podName podIP) with
  | some st =>
    match set c podName "busy" podIP st.function st.nspace st.maxInflight with
    | some c2 => (none, c2)
    | none => (none, c)
  | none => (none, c)

/-- `FunctionLookup.MarkPodIdle` from pod_status_updater.go. -/
def markPodIdle (c : List PodStatus) (podName podIP : String) :
    Option String × List PodStatus :=
  match load c (createKey podName podIP) with
  | some st =>
    match set c podName "idle" podIP st.function st.nspace st.maxInflight with
    | some c2 => (none, c2)
    | none => (none, c)
  | none => (none, c)

/-- The POST /system/pod-idle handler (pkg/handlers/pod_status.go), after a
successful JSON decode: calls `MarkPodIdle` and writes 500 on a non-nil error,
200 otherwise. -/
def makePodIdleHandler (c : List PodStatus) (podName podIP : String) :
    Nat × List PodStatus :=
  let r := markPodIdle c podName podIP
  match r.1 with
  | some _ => (500, r.2)
  | none => (200, r.2)

/-- One entry of the endpoint snapshot: an IP plus the optional
`TargetRef.Name`. -/
structure EndpointAddress where
  ip : String
  targetRefName : Option String
deriving DecidableEq, Repr

/-- Insertion of one address into the `addrSet` map keyed by IP (later
addresses with the same IP overwrite earlier ones, as in a Go map). -/
def upsertAddr : List EndpointAddress → EndpointAddress → List EndpointAddress
  | [], a => [a]
  | x :: xs, a => if x.ip == a.ip then a :: xs else x :: upsertAddr xs a

/-- The `addrSet` map of `PruneByAddresses`, as a list keyed by IP. -/
def dedupAddrs (addrs : List EndpointAddress) : List EndpointAddress :=
  addrs.foldl upsertAddr []

/-- Membership of an IP in an address list. -/
def ipInAddrs (addrs : List EndpointAddress) (ip : String) : Bool :=
  addrs.any (fun a => a.ip == ip)

/-- The found-scan of `PruneByAddresses` step 2: is there a record with this
function, namespace and IP. -/
def foundPod (c : List PodStatus) (function nspace ip : String) : Bool :=
  c.any (fun e => e.function == function && e.nspace == nspace && e.podIP == ip)

/-- Pod name chosen for a new endpoint: `addr.TargetRef.Name` if present and
non-empty, else the IP. -/
def podNameOf (a : EndpointAddress) : String :=
  match a.targetRefName with
  | some nm => if nm == "" then a.ip else nm
  | none => a.ip

/-- Step 2 of `PruneByAddresses`: for each address, if no matching record
exists, create it via `Set(idle)` with the given ceiling. -/
def pruneLoop (function nspace : String) (mi : Int) :
    List PodStatus → List EndpointAddress → Option (List PodStatus)
  | c, [] => some c
  | c, a :: rest =>
    if foundPod c function nspace a.ip then
      pruneLoop function nspace mi c rest
    else
      match set c (podNameOf a) "idle" a.ip function nspace (some mi) with
      | some c2 => pruneLoop function nspace mi c2 rest
      | none => none

/-- `PodStatusCache.PruneByAddresses` (pure 4-argument revision): build the
address set, delete records of the function whose IP is not in it, then add
missing endpoints as idle. -/
def pruneByAddresses (c : List PodStatus) (function nspace : String)
    (addresses : List EndpointAddress) (maxInflight : Int) :
    Option (List PodStatus) :=
  let ded := dedupAddrs addresses
  let c1 := c.filter (fun e =>
    !(e.function == function && e.nspace == nspace && !ipInAddrs ded e.podIP))
  pruneLoop function nspace maxInflight c1 ded

/-- `filterIdlePodsForAddresses` from idle_first_selector.go: idle, under the
ceiling, and IP in the address list. -/
def filterIdlePodsForAddresses (pods : List PodStatus)
    (addresses : List EndpointAddress) (maxInflight : Int) : List PodStatus :=
  pods.filter (fun pod =>
    pod.status == "idle" && decide (pod.activeConnections < maxInflight)
      && ipInAddrs addresses pod.podIP)

/-- `removePodFromList` from idle_first_selector.go. -/
def removePodFromList (pods : List PodStatus) (podIP : String) : List PodStatus :=
  pods.filter (fun p => p.podIP != podIP)

/-- Result of the inner address loop of `Select`: either a successful claim
(index, store before the claim, store after `MarkPodBusy`) or fall-through
with the current store and candidate list. -/
inductive InnerResult where
  | success (i : Nat) (cBefore cAfter : List PodStatus)
  | exhausted (c : List PodStatus) (idlePods : List PodStatus)
deriving Repr

/-- The inner `for i, addr := range addresses` loop of `Select`: at the first
address whose IP matches the selected pod, `TryMarkPodBusy`; on success,
`MarkPodBusy` and return the index; on failure, re-reconcile, re-filter the
(stale) pod list and continue with the next address. -/
def selectInner (functionName nspace : String) (mi : Int)
    (podStatuses : List PodStatus) (selected : PodStatus)
    (allAddrs : List EndpointAddress) :
    List EndpointAddress → Nat → List PodStatus → List PodStatus →
    Option InnerResult
  | [], _, c, idlePods => some (.exhausted c idlePods)
  | a :: rest, i, c, idlePods =>
    if a.ip == selected.podIP then
      if (tryMarkPodBusy c selected.podName selected.podIP).1 then
        some (.success i c (markPodBusy c selected.podName selected.podIP).2)
      else
        match pruneByAddresses c functionName nspace allAddrs mi with
        | some c2 =>
          selectInner functionName nspace mi podStatuses selected allAddrs
            rest (i + 1) c2
            (filterIdlePodsForAddresses podStatuses allAddrs mi)
        | none => none
    else
      selectInner functionName nspace mi podStatuses selected allAddrs
        rest (i + 1) c idlePods

/-- Observable outcome of `Select`: the returned index (`none` is the
no-idle-pods error), the final store, the number of loop iterations started,
the randomly chosen pod and the store at the moment of its claim. -/
structure SelectOutcome where
  index : Option Nat
  cache : List PodStatus
  iters : Nat
  chosen : Option PodStatus
  cBefore : List PodStatus
deriving Repr

/-- The `for tryCount < 3 && len(idlePods) > 0` loop of `Select`.  `remaining`
is `3 - tryCount`; `picks` feeds the random choices (`rand.Intn`); `probe` is
the liveness probe `checkPodAvailable`. -/
def selectLoop (probe : String → Bool) (functionName nspace : String) (mi : Int)
    (podStatuses : List PodStatus) (allAddrs : List EndpointAddress) :
    List Nat → List PodStatus → List PodStatus → Nat → Nat →
    Option SelectOutcome
  | _, c, _, 0, iters => some ⟨none, c, iters, none, []⟩
  | _, c, [], _ + 1, iters => some ⟨none, c, iters, none, []⟩
  | picks, c, p :: idleRest, remaining + 1, iters =>
    let idlePods := p :: idleRest
    let selected := idlePods.get
      ⟨picks.headD 0 % idlePods.length,
       Nat.mod_lt _ (by simp [idlePods])⟩
    if probe selected.podIP then
      match selectInner functionName nspace mi podStatuses selected allAddrs
          allAddrs 0 c idlePods with
      | none => none
      | some (.success i cb ca) =>
        some ⟨some i, ca, iters + 1, some selected, cb⟩
      | some (.exhausted c2 idle2) =>
        selectLoop probe functionName nspace mi podStatuses allAddrs
          picks.tail c2 (removePodFromList idle2 selected.podIP)
          remaining (iters + 1)
    else
      selectLoop probe functionName nspace mi podStatuses allAddrs
        picks.tail c (removePodFromList idlePods selected.podIP)
        remaining (iters + 1)

/-- `IdleFirstSelector.Select` (the revision with the ceiling filter and
`TryMarkPodBusy`): reconcile, list the pods of the function, filter the idle
candidates, then the three-try loop. -/
def select (probe : String → Bool) (picks : List Nat) (c : List PodStatus)
    (addresses : List EndpointAddress) (functionName nspace : String)
    (mi : Int) : Option SelectOutcome :=
  match pruneByAddresses c functionName nspace addresses mi with
  | none => none
  | some c1 =>
    let podStatuses := getByFunction c1 functionName nspace
    let idlePods := filterIdlePodsForAddresses podStatuses addresses mi
    selectLoop probe functionName nspace mi podStatuses addresses picks
      c1 idlePods 3 0

/-- A sequence of `Set` status commands applied to one key (used for the
counter-invariant claims). -/
def applySeq (podName podIP function nspace : String) (mi : Option Int) :
    List PodStatus → List String → Option (List PodStatus)
  | c, [] => some c
  | c, cmd :: rest =>
    match set c podName cmd podIP function nspace mi with
    | some c2 => applySeq podName podIP function nspace mi c2 rest
    | none => none

/-- An IP (or any string) that does not contain the `-` separator of
`createKey`. -/
def dashFree (s : String) : Prop :=
  '-' ∉ s.data

instance (s : String) : Decidable (dashFree s) := by
  unfold dashFree; infer_instance

instance (c : List PodStatus) : Decidable (KeysNodup c) := by
  unfold KeysNodup; infer_instance

/-- There is a record of this function and namespace with this IP. -/
def fnIP (c : List PodStatus) (function nspace ip : String) : Prop :=
  ∃ e, e ∈ c ∧ e.function = function ∧ e.nspace = nspace ∧ e.podIP = ip

/-- Modelled from the spec: the Phase-B queue entry of `Select`.  The queueing
revision of the selector (the 4-argument `Select` called by
`FunctionLookup.Resolve`) is not under src/; §4.4 of the spec describes the
wrapper put on the per-function channel. -/
structure QueuedRequest where
  startTimeMs : Nat
  maxWaitMs : Nat
  retryCount : Nat
  maxRetries : Nat
  replyCapacity : Nat
deriving DecidableEq, Repr

/-- Modelled from the spec: the per-function channel capacity. -/
def queueCapacity : Nat := 10

/-- Modelled from the spec: the wrapper for an enqueued request — start time,
max-wait 100 ms, retry count 0, max retries 10, reply channel of capacity 1. -/
def wrapRequest (nowMs : Nat) : QueuedRequest :=
  { startTimeMs := nowMs, maxWaitMs := 100, retryCount := 0,
    maxRetries := 10, replyCapacity := 1 }

/-- Modelled from the spec: the non-blocking send onto the per-function
channel — append when below capacity, fail immediately with queue-full when
the channel is at capacity. -/
def tryEnqueue (q : List QueuedRequest) (nowMs : Nat) :
    Except String (List QueuedRequest) :=
  if q.length < queueCapacity then Except.ok (q ++ [wrapRequest nowMs])
  else Except.error "queue full"

/-- Modelled from the spec: when Phase A produced no claim, `Select` enqueues
instead of returning the no-idle-pods error directly. -/
def selectPhaseB (phaseA : Option Nat) (q : List QueuedRequest) (nowMs : Nat) :
    Except String (Option Nat × List QueuedRequest) :=
  match phaseA with
  | some i => Except.ok (some i, q)
  | none =>
    match tryEnqueue q nowMs with
    | Except.ok q2 => Except.ok (none, q2)
    | Except.error e => Except.error e

end FaasNetes

namespace FaasNetes

/-! ### Basic store lemmas -/

theorem load_mem {c : List PodStatus} {k : String} {e : PodStatus}
    (h : load c k = some e) : e ∈ c ∧ keyOf e = k := by
  induction c with
  | nil => simp [load] at h
  | cons x xs ih =>
    by_cases hx : keyOf x = k
    · simp only [load, if_pos hx, Option.some.injEq] at h
      subst h
      exact ⟨List.mem_cons_self _ _, hx⟩
    · simp only [load, if_neg hx] at h
      rcases ih h with ⟨h1, h2⟩
      exact ⟨List.mem_cons_of_mem _ h1, h2⟩

theorem load_eq_none_iff {c : List PodStatus} {k : String} :
    load c k = none ↔ ∀ e ∈ c, keyOf e ≠ k := by
  induction c with
  | nil => simp [load]
  | cons x xs ih =>
    by_cases hx : keyOf x = k
    · simp [load, hx]
    · simp [load, hx, ih]

theorem load_storeEntry_self (c : List PodStatus) (r : PodStatus) :
    load (storeEntry c r) (keyOf r) = some r := by
  induction c with
  | nil => simp [storeEntry, load]
  | cons x xs ih =>
    by_cases hx : keyOf x = keyOf r
    · simp [storeEntry, hx, load]
    · simp [storeEntry, hx, load, ih]

theorem self_mem_storeEntry (c : List PodStatus) (r : PodStatus) :
    r ∈ storeEntry c r := by
  induction c with
  | nil => simp [storeEntry]
  | cons x xs ih =>
    by_cases hx : keyOf x = keyOf r
    · simp [storeEntry, hx]
    · simp only [storeEntry, if_neg hx, List.mem_cons]
      exact Or.inr ih

theorem mem_keyOf_storeEntry {c : List PodStatus} {r : PodStatus} {k : String}
    (h : k ∈ (storeEntry c r).map keyOf) :
    k ∈ c.map keyOf ∨ k = keyOf r := by
  induction c with
  | nil => simpa [storeEntry] using h
  | cons x xs ih =>
    by_cases hx : keyOf x = keyOf r
    · simp only [storeEntry, if_pos hx, List.map_cons, List.mem_cons] at h ⊢
      rcases h with h | h
      · exact Or.inr h
      · exact Or.inl (Or.inr h)
    · simp only [storeEntry, if_neg hx, List.map_cons, List.mem_cons] at h ⊢
      rcases h with h | h
      · exact Or.inl (Or.inl h)
      · rcases ih h with h | h
        · exact Or.inl (Or.inr h)
        · exact Or.inr h

theorem keysNodup_storeEntry {c : List PodStatus} (r : PodStatus)
    (h : KeysNodup c) : KeysNodup (storeEntry c r) := by
  induction c with
  | nil => simp [KeysNodup, storeEntry]
  | cons x xs ih =>
    rw [KeysNodup, List.map_cons, List.nodup_cons] at h
    by_cases hx : keyOf x = keyOf r
    · rw [KeysNodup, storeEntry, if_pos hx, List.map_cons, List.nodup_cons]
      exact ⟨hx ▸ h.1, h.2⟩
    · rw [KeysNodup, storeEntry, if_neg hx, List.map_cons, List.nodup_cons]
      refine ⟨fun hmem => ?_, ih h.2⟩
      rcases mem_keyOf_storeEntry hmem with hmem | hmem
      · exact h.1 hmem
      · exact hx hmem

theorem mem_storeEntry {c : List PodStatus} {r x : PodStatus}
    (hnd : KeysNodup c) :
    x ∈ storeEntry c r ↔ x = r ∨ (x ∈ c ∧ keyOf x ≠ keyOf r) := by
  induction c with
  | nil =>
    simp [storeEntry]
  | cons e es ih =>
    rw [KeysNodup, List.map_cons, List.nodup_cons] at hnd
    by_cases he : keyOf e = keyOf r
    · rw [storeEntry, if_pos he]
      constructor
      · intro hx
        rcases List.mem_cons.mp hx with hx | hx
        · exact Or.inl hx
        · refine Or.inr ⟨List.mem_cons_of_mem _ hx, fun hk => ?_⟩
          exact hnd.1 (he ▸ hk ▸ List.mem_map_of_mem keyOf hx)
      · rintro (hx | ⟨hx, hk⟩)
        · exact hx ▸ List.mem_cons_self _ _
        · rcases List.mem_cons.mp hx with hx | hx
          · exact absurd (hx ▸ he) hk
          · exact List.mem_cons_of_mem _ hx
    · rw [storeEntry, if_neg he]
      constructor
      · intro hx
        rcases List.mem_cons.mp hx with hx | hx
        · exact Or.inr ⟨hx ▸ List.mem_cons_self _ _, hx ▸ he⟩
        · rcases (ih hnd.2).mp hx with hx | ⟨hx1, hx2⟩
          · exact Or.inl hx
          · exact Or.inr ⟨List.mem_cons_of_mem _ hx1, hx2⟩
      · rintro (hx | ⟨hx, hk⟩)
        · exact List.mem_cons_of_mem _ ((ih hnd.2).mpr (Or.inl hx))
        · rcases List.mem_cons.mp hx with hx | hx
          · exact hx ▸ List.mem_cons_self _ _
          · exact List.mem_cons_of_mem _ ((ih hnd.2).mpr (Or.inr ⟨hx, hk⟩))

/-! ### Key injectivity for dash-free IPs -/

theorem sep_inj : ∀ (n1 : List Char) {ip1 : List Char} (n2 : List Char)
    {ip2 : List Char}, '-' ∉ ip1 → '-' ∉ ip2 →
    n1 ++ '-' :: ip1 = n2 ++ '-' :: ip2 → n1 = n2 ∧ ip1 = ip2 := by
  intro n1
  induction n1 with
  | nil =>
    intro ip1 n2 ip2 h1 h2 h
    cases n2 with
    | nil =>
      simp only [List.nil_append, List.cons.injEq] at h
      exact ⟨rfl, h.2⟩
    | cons d n2t =>
      simp only [List.nil_append, List.cons_append, List.cons.injEq] at h
      exfalso
      exact h1 (h.2 ▸ List.mem_append_right _ (List.mem_cons_self _ _))
  | cons b n1t ih =>
    intro ip1 n2 ip2 h1 h2 h
    cases n2 with
    | nil =>
      simp only [List.cons_append, List.nil_append, List.cons.injEq] at h
      exfalso
      exact h2 (h.2 ▸ List.mem_append_right _ (List.mem_cons_self _ _))
    | cons d n2t =>
      simp only [List.cons_append, List.cons.injEq] at h
      rcases ih n2t h1 h2 h.2 with ⟨ha, hb⟩
      exact ⟨by rw [h.1, ha], hb⟩

theorem createKey_inj {n1 ip1 n2 ip2 : String} (h1 : dashFree ip1)
    (h2 : dashFree ip2) (h : createKey n1 ip1 = createKey n2 ip2) :
    n1 = n2 ∧ ip1 = ip2 := by
  have hd : n1.data ++ '-' :: ip1.data = n2.data ++ '-' :: ip2.data := by
    have hc := congrArg String.data h
    simpa [createKey, String.data_append] using hc
  rcases sep_inj n1.data n2.data h1 h2 hd with ⟨ha, hb⟩
  refine ⟨?_, ?_⟩
  · cases n1; cases n2; exact congrArg String.mk ha
  · cases ip1; cases ip2; exact congrArg String.mk hb

end FaasNetes

namespace FaasNetes

/-! ### Address-set lemmas -/

theorem foundPod_iff {c : List PodStatus} {f n ip : String} :
    foundPod c f n ip = true ↔ fnIP c f n ip := by
  simp only [foundPod, fnIP, List.any_eq_true, Bool.and_eq_true, beq_iff_eq]
  constructor
  · rintro ⟨e, he, ⟨⟨h1, h2⟩, h3⟩⟩
    exact ⟨e, he, h1, h2, h3⟩
  · rintro ⟨e, he, h1, h2, h3⟩
    exact ⟨e, he, ⟨⟨h1, h2⟩, h3⟩⟩

theorem ipInAddrs_iff {as : List EndpointAddress} {ip : String} :
    ipInAddrs as ip = true ↔ ∃ a ∈ as, a.ip = ip := by
  simp [ipInAddrs, List.any_eq_true]

theorem mem_upsert {l : List EndpointAddress} {a x : EndpointAddress}
    (h : x ∈ upsertAddr l a) : x = a ∨ x ∈ l := by
  induction l with
  | nil => simpa [upsertAddr] using h
  | cons e es ih =>
    rw [upsertAddr] at h
    cases hb : e.ip == a.ip <;> rw [hb] at h
    · simp only [Bool.false_eq_true, if_false, List.mem_cons] at h
      rcases h with h | h
      · exact Or.inr (h ▸ List.mem_cons_self _ _)
      · rcases ih h with h | h
        · exact Or.inl h
        · exact Or.inr (List.mem_cons_of_mem _ h)
    · simp only [if_true, List.mem_cons] at h
      rcases h with h | h
      · exact Or.inl h
      · exact Or.inr (List.mem_cons_of_mem _ h)

theorem self_mem_upsert (l : List EndpointAddress) (a : EndpointAddress) :
    a ∈ upsertAddr l a := by
  induction l with
  | nil => simp [upsertAddr]
  | cons e es ih =>
    rw [upsertAddr]
    cases hb : e.ip == a.ip <;> simp [ih]

theorem mem_upsert_of_mem {l : List EndpointAddress} {a x : EndpointAddress}
    (h : x ∈ l) : x ∈ upsertAddr l a ∨ x.ip = a.ip := by
  induction l with
  | nil => simp at h
  | cons e es ih =>
    rw [upsertAddr]
    rcases List.mem_cons.mp h with h | h
    · cases hb : e.ip == a.ip
      · subst h
        simp
      · exact Or.inr (h ▸ beq_iff_eq.mp hb)
    · cases hb : e.ip == a.ip
      · rcases ih h with h2 | h2
        · simp [h2]
        · exact Or.inr h2
      · simp [List.mem_cons_of_mem _ h]

theorem ipIn_upsert_iff {l : List EndpointAddress} {a : EndpointAddress}
    {ip : String} :
    ipInAddrs (upsertAddr l a) ip = true ↔
      (ipInAddrs l ip = true ∨ a.ip = ip) := by
  rw [ipInAddrs_iff, ipInAddrs_iff]
  constructor
  · rintro ⟨b, hb, hip⟩
    rcases mem_upsert hb with h | h
    · exact Or.inr (h ▸ hip)
    · exact Or.inl ⟨b, h, hip⟩
  · rintro (⟨b, hb, hip⟩ | h)
    · rcases @mem_upsert_of_mem l a b hb with h2 | h2
      · exact ⟨b, h2, hip⟩
      · exact ⟨a, self_mem_upsert _ _, h2 ▸ hip⟩
    · exact ⟨a, self_mem_upsert _ _, h⟩

theorem ipIn_dedup_iff {as : List EndpointAddress} {ip : String} :
    ipInAddrs (dedupAddrs as) ip = true ↔ ipInAddrs as ip = true := by
  have aux : ∀ (l acc : List EndpointAddress),
      ipInAddrs (l.foldl upsertAddr acc) ip = true ↔
        (ipInAddrs acc ip = true ∨ ipInAddrs l ip = true) := by
    intro l
    induction l with
    | nil => simp [ipInAddrs]
    | cons a rest ih =>
      intro acc
      rw [List.foldl_cons, ih, ipIn_upsert_iff]
      rw [@ipInAddrs_iff (a :: rest) ip]
      rw [@ipInAddrs_iff rest ip]
      constructor
      · rintro ((h | h) | h)
        · exact Or.inl h
        · exact Or.inr ⟨a, List.mem_cons_self _ _, h⟩
        · rcases h with ⟨b, hb, hip⟩
          exact Or.inr ⟨b, List.mem_cons_of_mem _ hb, hip⟩
      · rintro (h | ⟨b, hb, hip⟩)
        · exact Or.inl (Or.inl h)
        · rcases List.mem_cons.mp hb with h2 | h2
          · exact Or.inl (Or.inr (h2 ▸ hip))
          · exact Or.inr ⟨b, h2, hip⟩
  have := aux as []
  rw [dedupAddrs]
  rw [this]
  simp [ipInAddrs]

theorem mem_dedup_sub {as : List EndpointAddress} {x : EndpointAddress}
    (h : x ∈ dedupAddrs as) : x ∈ as := by
  rw [dedupAddrs] at h
  have aux : ∀ (l acc : List EndpointAddress),
      x ∈ l.foldl upsertAddr acc → x ∈ acc ∨ x ∈ l := by
    intro l
    induction l with
    | nil => intro acc h; exact Or.inl h
    | cons a rest ih =>
      intro acc h
      rcases ih _ h with h | h
      · rcases mem_upsert h with h | h
        · exact Or.inr (h ▸ List.mem_cons_self _ _)
        · exact Or.inl h
      · exact Or.inr (List.mem_cons_of_mem _ h)
  rcases aux as [] h with h | h
  · simp at h
  · exact h

end FaasNetes

namespace FaasNetes

/-! ### Equations for `set` -/

theorem keyOf_setExisting (cur : PodStatus) (pn s ip f n : String)
    (mi : Option Int) : keyOf (setExisting cur pn s ip f n mi) = createKey pn ip := rfl

theorem keyOf_setMissing (pn ip f n : String) (m : Int) :
    keyOf (setMissing pn ip f n m) = createKey pn ip := rfl

theorem set_of_load_some {c : List PodStatus} {cur : PodStatus}
    {pn s ip f n : String} {mi : Option Int}
    (h : load c (createKey pn ip) = some cur) :
    set c pn s ip f n mi =
      some (storeEntry c (setExisting cur pn s ip f n mi)) := by
  simp only [set, h]

theorem set_of_load_none {c : List PodStatus} {pn s ip f n : String} {m : Int}
    (h : load c (createKey pn ip) = none) :
    set c pn s ip f n (some m) =
      some (storeEntry c (setMissing pn ip f n m)) := by
  simp only [set, h]

theorem setExisting_idle (cur : PodStatus) (pn ip f n : String)
    (mi : Option Int) :
    setExisting cur pn "idle" ip f n mi =
      { podName := pn, status := "idle", podIP := ip, function := f,
        nspace := n, activeConnections := max (cur.activeConnections - 1) 0,
        maxInflight := mi } := rfl

theorem setExisting_reset (cur : PodStatus) (pn ip f n : String)
    (mi : Option Int) :
    setExisting cur pn "reset" ip f n mi =
      { podName := pn, status := "idle", podIP := ip, function := f,
        nspace := n, activeConnections := 0, maxInflight := mi } := rfl

theorem setExisting_verbatim (cur : PodStatus) (pn s ip f n : String)
    (mi : Option Int) (h1 : s ≠ "busy") (h2 : s ≠ "idle") (h3 : s ≠ "reset") :
    setExisting cur pn s ip f n mi =
      { podName := pn, status := s, podIP := ip, function := f, nspace := n,
        activeConnections := cur.activeConnections, maxInflight := mi } := by
  simp [setExisting, h1, h2, h3]

theorem setExisting_busy_ac (cur : PodStatus) (pn ip f n : String)
    (mi : Option Int) :
    (setExisting cur pn "busy" ip f n mi).activeConnections =
      cur.activeConnections + 1 := by
  rcases mi with _ | m <;> rcases h : cur.maxInflight with _ | m0 <;>
    simp [setExisting, h]

theorem setExisting_busy_eq (cur : PodStatus) (pn ip f n : String) (m : Int)
    (hm : cur.maxInflight = some m) :
    setExisting cur pn "busy" ip f n (some m) =
      { podName := pn,
        status := if cur.activeConnections + 1 ≥ m then "busy" else "idle",
        podIP := ip, function := f, nspace := n,
        activeConnections := cur.activeConnections + 1,
        maxInflight := some m } := by
  simp [setExisting, hm]

end FaasNetes

namespace FaasNetes

/-! ### The reconciliation loop invariant -/

theorem pruneLoop_spec (f n : String) (mi : Int) :
    ∀ (as : List EndpointAddress) (c : List PodStatus),
      KeysNodup c → (∀ e ∈ c, dashFree e.podIP) →
      (∀ a ∈ as, dashFree a.ip) →
      ∃ c2, pruneLoop f n mi c as = some c2 ∧
        KeysNodup c2 ∧ (∀ e ∈ c2, dashFree e.podIP) ∧
        (∀ ip, fnIP c2 f n ip ↔ (fnIP c f n ip ∨ ∃ a ∈ as, a.ip = ip)) ∧
        (∀ (K : List String), 1 ≤ mi →
          (∀ e ∈ c, keyOf e ∉ K → e.status = "idle" ∧ e.activeConnections = 0) →
          (∀ e ∈ c2, keyOf e ∉ K → e.status = "idle" ∧ e.activeConnections = 0)) := by
  intro as
  induction as with
  | nil =>
    intro c hnd hdc _
    refine ⟨c, rfl, hnd, hdc, fun ip => by simp, fun K _ hinv => hinv⟩
  | cons a rest ih =>
    intro c hnd hdc hda
    have hda_rest : ∀ b ∈ rest, dashFree b.ip :=
      fun b hb => hda b (List.mem_cons_of_mem _ hb)
    have hda_a : dashFree a.ip := hda a (List.mem_cons_self _ _)
    by_cases hf : foundPod c f n a.ip = true
    · rcases ih c hnd hdc hda_rest with ⟨c2, hrun, hnd2, hdc2, heq, hinv⟩
      refine ⟨c2, ?_, hnd2, hdc2, ?_, hinv⟩
      · simp only [pruneLoop, if_pos hf]
        exact hrun
      · intro ip
        rw [heq ip]
        have hfn : fnIP c f n a.ip := foundPod_iff.mp hf
        constructor
        · rintro (h | ⟨b, hb, hip⟩)
          · exact Or.inl h
          · exact Or.inr ⟨b, List.mem_cons_of_mem _ hb, hip⟩
        · rintro (h | ⟨b, hb, hip⟩)
          · exact Or.inl h
          · rcases List.mem_cons.mp hb with hb | hb
            · subst hb
              exact Or.inl (hip ▸ hfn)
            · exact Or.inr ⟨b, hb, hip⟩
    · cases hload : load c (createKey (podNameOf a) a.ip) with
      | some old =>
        have hset := @set_of_load_some c old (podNameOf a) "idle" a.ip f n
          (some mi) hload
        rw [setExisting_idle] at hset
        set r : PodStatus :=
          { podName := podNameOf a, status := "idle", podIP := a.ip,
            function := f, nspace := n,
            activeConnections := max (old.activeConnections - 1) 0,
            maxInflight := some mi } with hr
        have hkey : keyOf r = createKey (podNameOf a) a.ip := rfl
        have hnd1 : KeysNodup (storeEntry c r) := keysNodup_storeEntry r hnd
        have hdc1 : ∀ e ∈ storeEntry c r, dashFree e.podIP := by
          intro e he
          rcases (mem_storeEntry hnd).mp he with he | ⟨he, _⟩
          · subst he; exact hda_a
          · exact hdc e he
        rcases ih (storeEntry c r) hnd1 hdc1 hda_rest with
          ⟨c2, hrun, hnd2, hdc2, heq, hinv⟩
        have hstep : ∀ ip, fnIP (storeEntry c r) f n ip ↔
            (ip = a.ip ∨ fnIP c f n ip) := by
          intro ip
          constructor
          · rintro ⟨e, he, hef, hen, hei⟩
            rcases (mem_storeEntry hnd).mp he with he | ⟨he, _⟩
            · subst he
              exact Or.inl hei.symm
            · exact Or.inr ⟨e, he, hef, hen, hei⟩
          · rintro (h | ⟨e, he, hef, hen, hei⟩)
            · exact ⟨r, self_mem_storeEntry _ _, rfl, rfl, h.symm⟩
            · by_cases hk : keyOf e = keyOf r
              · have := createKey_inj (hdc e he) hda_a hk
                exact ⟨r, self_mem_storeEntry _ _, rfl, rfl,
                  hei ▸ this.2 ▸ rfl⟩
              · exact ⟨e, (mem_storeEntry hnd).mpr (Or.inr ⟨he, hk⟩),
                  hef, hen, hei⟩
        refine ⟨c2, ?_, hnd2, hdc2, ?_, ?_⟩
        · simp only [pruneLoop, if_neg hf, hset]
          exact hrun
        · intro ip
          rw [heq ip, hstep ip]
          constructor
          · rintro ((h | h) | ⟨b, hb, hip⟩)
            · exact Or.inr ⟨a, List.mem_cons_self _ _, h.symm⟩
            · exact Or.inl h
            · exact Or.inr ⟨b, List.mem_cons_of_mem _ hb, hip⟩
          · rintro (h | ⟨b, hb, hip⟩)
            · exact Or.inl (Or.inr h)
            · rcases List.mem_cons.mp hb with hb | hb
              · exact Or.inl (Or.inl (hb ▸ hip.symm))
              · exact Or.inr ⟨b, hb, hip⟩
        · intro K hmi hinvc
          refine hinv K hmi ?_
          intro e he hkK
          rcases (mem_storeEntry hnd).mp he with he | ⟨he, _⟩
          · subst he
            rcases load_mem hload with ⟨hold_mem, hold_key⟩
            have hoK : keyOf old ∉ K := by
              rw [hold_key]; exact hkK
            have h0 := (hinvc old hold_mem hoK).2
            refine ⟨rfl, ?_⟩
            show max (old.activeConnections - 1) 0 = 0
            rw [h0]
            decide
          · exact hinvc e he hkK
      | none =>
        have hset := @set_of_load_none c (podNameOf a) "idle" a.ip f n mi hload
        set r : PodStatus := setMissing (podNameOf a) a.ip f n mi with hr
        have hkey : keyOf r = createKey (podNameOf a) a.ip := rfl
        have hnd1 : KeysNodup (storeEntry c r) := keysNodup_storeEntry r hnd
        have hdc1 : ∀ e ∈ storeEntry c r, dashFree e.podIP := by
          intro e he
          rcases (mem_storeEntry hnd).mp he with he | ⟨he, _⟩
          · subst he; exact hda_a
          · exact hdc e he
        rcases ih (storeEntry c r) hnd1 hdc1 hda_rest with
          ⟨c2, hrun, hnd2, hdc2, heq, hinv⟩
        have hstep : ∀ ip, fnIP (storeEntry c r) f n ip ↔
            (ip = a.ip ∨ fnIP c f n ip) := by
          intro ip
          constructor
          · rintro ⟨e, he, hef, hen, hei⟩
            rcases (mem_storeEntry hnd).mp he with he | ⟨he, _⟩
            · subst he
              exact Or.inl hei.symm
            · exact Or.inr ⟨e, he, hef, hen, hei⟩
          · rintro (h | ⟨e, he, hef, hen, hei⟩)
            · exact ⟨r, self_mem_storeEntry _ _, rfl, rfl, h.symm⟩
            · have hk : keyOf e ≠ keyOf r := by
                rw [hkey]
                exact load_eq_none_iff.mp hload e he
              exact ⟨e, (mem_storeEntry hnd).mpr (Or.inr ⟨he, hk⟩),
                hef, hen, hei⟩
        refine ⟨c2, ?_, hnd2, hdc2, ?_, ?_⟩
        · simp only [pruneLoop, if_neg hf, hset]
          exact hrun
        · intro ip
          rw [heq ip, hstep ip]
          constructor
          · rintro ((h | h) | ⟨b, hb, hip⟩)
            · exact Or.inr ⟨a, List.mem_cons_self _ _, h.symm⟩
            · exact Or.inl h
            · exact Or.inr ⟨b, List.mem_cons_of_mem _ hb, hip⟩
          · rintro (h | ⟨b, hb, hip⟩)
            · exact Or.inl (Or.inr h)
            · rcases List.mem_cons.mp hb with hb | hb
              · exact Or.inl (Or.inl (hb ▸ hip.symm))
              · exact Or.inr ⟨b, hb, hip⟩
        · intro K hmi hinvc
          refine hinv K hmi ?_
          intro e he hkK
          rcases (mem_storeEntry hnd).mp he with he | ⟨he, _⟩
          · subst he
            refine ⟨?_, rfl⟩
            show (if (0 : Int) ≥ mi then "busy" else "idle") = "idle"
            rw [if_neg (by omega)]
          · exact hinvc e he hkK

end FaasNetes

namespace FaasNetes

theorem pruneByAddresses_spec (c : List PodStatus) (f n : String)
    (S : List EndpointAddress) (mi : Int)
    (hnd : KeysNodup c) (hdc : ∀ e ∈ c, dashFree e.podIP)
    (hds : ∀ a ∈ S, dashFree a.ip) :
    ∃ c2, pruneByAddresses c f n S mi = some c2 ∧
      KeysNodup c2 ∧ (∀ e ∈ c2, dashFree e.podIP) ∧
      (∀ ip, fnIP c2 f n ip ↔ ipInAddrs S ip = true) ∧
      (1 ≤ mi → ∀ e ∈ c2, keyOf e ∉ c.map keyOf →
        e.status = "idle" ∧ e.activeConnections = 0) := by
  set ded := dedupAddrs S with hded
  set c1 := c.filter (fun e =>
    !(e.function == f && e.nspace == n && !ipInAddrs ded e.podIP)) with hc1
  have hnd1 : KeysNodup c1 := by
    have hsub : List.Sublist (c1.map keyOf) (c.map keyOf) :=
      List.Sublist.map keyOf (List.filter_sublist c)
    exact List.Nodup.sublist hsub hnd
  have hdc1 : ∀ e ∈ c1, dashFree e.podIP :=
    fun e he => hdc e (List.mem_of_mem_filter he)
  have hda_ded : ∀ a ∈ ded, dashFree a.ip :=
    fun a ha => hds a (mem_dedup_sub ha)
  rcases pruneLoop_spec f n mi ded c1 hnd1 hdc1 hda_ded with
    ⟨c2, hrun, hnd2, hdc2, heq, hinv⟩
  have hc1ip : ∀ ip, fnIP c1 f n ip → ipInAddrs ded ip = true := by
    rintro ip ⟨e, he, hef, hen, hei⟩
    have hp := List.of_mem_filter he
    simp only [hef, hen, beq_self_eq_true, Bool.true_and, Bool.not_not] at hp
    exact hei ▸ hp
  refine ⟨c2, hrun, hnd2, hdc2, ?_, ?_⟩
  · intro ip
    rw [heq ip]
    constructor
    · rintro (h | ⟨a, ha, hip⟩)
      · exact ipIn_dedup_iff.mp (hc1ip ip h)
      · exact ipIn_dedup_iff.mp (ipInAddrs_iff.mpr ⟨a, ha, hip⟩)
    · intro h
      have h2 : ipInAddrs ded ip = true := ipIn_dedup_iff.mpr h
      rcases ipInAddrs_iff.mp h2 with ⟨a, ha, hip⟩
      exact Or.inr ⟨a, ha, hip⟩
  · intro hmi
    refine hinv (c.map keyOf) hmi ?_
    intro e he hk
    exact absurd (List.mem_map_of_mem keyOf (List.mem_of_mem_filter he)) hk

theorem pruneLoop_all_found (f n : String) (mi : Int) :
    ∀ (as : List EndpointAddress) (c : List PodStatus),
      (∀ a ∈ as, foundPod c f n a.ip = true) →
      pruneLoop f n mi c as = some c := by
  intro as
  induction as with
  | nil => intro c _; rfl
  | cons a rest ih =>
    intro c h
    simp only [pruneLoop, if_pos (h a (List.mem_cons_self _ _))]
    exact ih c (fun b hb => h b (List.mem_cons_of_mem _ hb))

end FaasNetes

namespace FaasNetes

/-! ### Counter bounds for command sequences -/

theorem applySeq_bounds_aux (pn ip f n : String) (mi : Option Int) :
    ∀ (cmds : List String) (c : List PodStatus) (r : PodStatus),
      load c (createKey pn ip) = some r → 0 ≤ r.activeConnections →
      (∀ cmd ∈ cmds, cmd = "busy" ∨ cmd = "idle") →
      ∃ c2 r2, applySeq pn ip f n mi c cmds = some c2 ∧
        load c2 (createKey pn ip) = some r2 ∧
        0 ≤ r2.activeConnections ∧
        r.activeConnections + (cmds.count "busy" : Int) -
          (cmds.count "idle" : Int) ≤ r2.activeConnections ∧
        r2.activeConnections ≤ r.activeConnections + (cmds.count "busy" : Int) := by
  intro cmds
  induction cmds with
  | nil =>
    intro c r hl h0 _
    refine ⟨c, r, rfl, hl, h0, ?_, ?_⟩ <;> simp
  | cons cmd rest ih =>
    intro c r hl h0 hall
    have happ : ∀ r1 : PodStatus,
        setExisting r pn cmd ip f n mi = r1 →
        applySeq pn ip f n mi c (cmd :: rest) =
          applySeq pn ip f n mi (storeEntry c r1) rest := by
      intro r1 hr1
      simp only [applySeq, set_of_load_some hl, hr1]
    rcases hall cmd (List.mem_cons_self _ _) with hcmd | hcmd
    · subst hcmd
      set r1 := setExisting r pn "busy" ip f n mi with hr1
      have hload1 : load (storeEntry c r1) (createKey pn ip) = some r1 :=
        load_storeEntry_self c r1
      have hac1 : r1.activeConnections = r.activeConnections + 1 :=
        setExisting_busy_ac r pn ip f n mi
      rcases ih (storeEntry c r1) r1 hload1 (by omega)
          (fun x hx => hall x (List.mem_cons_of_mem _ hx)) with
        ⟨c2, r2, happ2, hl2, h02, hlow, hhigh⟩
      refine ⟨c2, r2, ?_, hl2, h02, ?_, ?_⟩
      · rw [happ r1 rfl]; exact happ2
      · rw [List.count_cons_self, List.count_cons_of_ne (by decide)]
        push_cast
        omega
      · rw [List.count_cons_self]
        push_cast
        omega
    · subst hcmd
      set r1 := setExisting r pn "idle" ip f n mi with hr1
      have hload1 : load (storeEntry c r1) (createKey pn ip) = some r1 :=
        load_storeEntry_self c r1
      have hac1 : r1.activeConnections = max (r.activeConnections - 1) 0 := by
        rw [hr1, setExisting_idle]
      have h01 : 0 ≤ r1.activeConnections := by
        rw [hac1]; exact le_max_right _ _
      have hlow1 : r.activeConnections - 1 ≤ r1.activeConnections := by
        rw [hac1]; exact le_max_left _ _
      have hhigh1 : r1.activeConnections ≤ r.activeConnections := by
        rw [hac1]; exact max_le (by omega) h0
      rcases ih (storeEntry c r1) r1 hload1 h01
          (fun x hx => hall x (List.mem_cons_of_mem _ hx)) with
        ⟨c2, r2, happ2, hl2, h02, hlow, hhigh⟩
      refine ⟨c2, r2, ?_, hl2, h02, ?_, ?_⟩
      · rw [happ r1 rfl]; exact happ2
      · rw [List.count_cons_self, List.count_cons_of_ne (by decide)]
        push_cast
        omega
      · rw [List.count_cons_of_ne (by decide)]
        omega

/-! ### Claim-support lemmas for the selector -/

theorem tryMark_true_load {c : List PodStatus} {pn ip : String}
    (h : (tryMarkPodBusy c pn ip).1 = true) :
    ∃ ps, load c (createKey pn ip) = some ps := by
  cases hl : load c (createKey pn ip) with
  | none => simp [tryMarkPodBusy, hl] at h
  | some ps => exact ⟨ps, rfl⟩

theorem markPodBusy_snd {c : List PodStatus} {pn ip : String} {st : PodStatus}
    (h : load c (createKey pn ip) = some st) :
    (markPodBusy c pn ip).2 =
      storeEntry c (setExisting st pn "busy" ip st.function st.nspace
        st.maxInflight) := by
  simp only [markPodBusy, set_of_load_some h, h]

end FaasNetes

namespace FaasNetes

theorem selectInner_success (fn nsp : String) (mi : Int)
    (pods : List PodStatus) (sel : PodStatus) (all : List EndpointAddress) :
    ∀ (as : List EndpointAddress) (i : Nat) (c idle : List PodStatus)
      {j : Nat} {cb ca : List PodStatus},
      selectInner fn nsp mi pods sel all as i c idle =
        some (InnerResult.success j cb ca) →
      ∃ a, as.get? (j - i) = some a ∧ i ≤ j ∧ a.ip = sel.podIP ∧
        (tryMarkPodBusy cb sel.podName sel.podIP).1 = true ∧
        ca = (markPodBusy cb sel.podName sel.podIP).2 := by
  intro as
  induction as with
  | nil =>
    intro i c idle j cb ca h
    simp [selectInner] at h
  | cons a rest ih =>
    intro i c idle j cb ca h
    rw [selectInner] at h
    by_cases hip : (a.ip == sel.podIP) = true
    · rw [if_pos hip] at h
      by_cases ht : (tryMarkPodBusy c sel.podName sel.podIP).1 = true
      · rw [if_pos ht] at h
        simp only [Option.some.injEq, InnerResult.success.injEq] at h
        obtain ⟨hj, hcb, hca⟩ := h
        subst hj; subst hcb; subst hca
        exact ⟨a, by simp, le_refl _, beq_iff_eq.mp hip, ht, rfl⟩
      · rw [if_neg ht] at h
        cases hp : pruneByAddresses c fn nsp all mi with
        | none => rw [hp] at h; simp at h
        | some c2 =>
          rw [hp] at h
          simp only at h
          rcases ih (i + 1) c2 _ h with ⟨a2, hget, hij, hipa, htm, hca⟩
          have hji : j - i = (j - (i + 1)) + 1 := by omega
          refine ⟨a2, ?_, by omega, hipa, htm, hca⟩
          rw [hji]
          simpa using hget
    · rw [if_neg hip] at h
      rcases ih (i + 1) c idle h with ⟨a2, hget, hij, hipa, htm, hca⟩
      have hji : j - i = (j - (i + 1)) + 1 := by omega
      refine ⟨a2, ?_, by omega, hipa, htm, hca⟩
      rw [hji]
      simpa using hget

theorem selectLoop_iters (probe : String → Bool) (fn nsp : String) (mi : Int)
    (pods : List PodStatus) (all : List EndpointAddress) :
    ∀ (remaining : Nat) (picks : List Nat) (c idle : List PodStatus)
      (iters : Nat) (out : SelectOutcome),
      selectLoop probe fn nsp mi pods all picks c idle remaining iters =
        some out →
      out.iters ≤ iters + remaining := by
  intro remaining
  induction remaining with
  | zero =>
    intro picks c idle iters out h
    simp only [selectLoop, Option.some.injEq] at h
    subst h
    simp
  | succ rem ih =>
    intro picks c idle iters out h
    cases idle with
    | nil =>
      simp only [selectLoop, Option.some.injEq] at h
      subst h
      simp
    | cons p idleRest =>
      rw [selectLoop] at h
      split at h
      · split at h
        · simp at h
        · simp only [Option.some.injEq] at h
          subst h
          simp only
          omega
        · have := ih _ _ _ _ _ h
          omega
      · have := ih _ _ _ _ _ h
        omega

theorem selectLoop_success (probe : String → Bool) (fn nsp : String) (mi : Int)
    (pods : List PodStatus) (all : List EndpointAddress) :
    ∀ (remaining : Nat) (picks : List Nat) (c idle : List PodStatus)
      (iters : Nat) (out : SelectOutcome),
      selectLoop probe fn nsp mi pods all picks c idle remaining iters =
        some out →
      ∀ i, out.index = some i →
      ∃ p, out.chosen = some p ∧
        (∃ a, all.get? i = some a ∧ a.ip = p.podIP) ∧
        (tryMarkPodBusy out.cBefore p.podName p.podIP).1 = true ∧
        out.cache = (markPodBusy out.cBefore p.podName p.podIP).2 := by
  intro remaining
  induction remaining with
  | zero =>
    intro picks c idle iters out h i hi
    simp only [selectLoop, Option.some.injEq] at h
    subst h
    simp at hi
  | succ rem ih =>
    intro picks c idle iters out h i hi
    cases idle with
    | nil =>
      simp only [selectLoop, Option.some.injEq] at h
      subst h
      simp at hi
    | cons p idleRest =>
      rw [selectLoop] at h
      split at h
      · split at h
        · simp at h
        · rename_i heq
          simp only [Option.some.injEq] at h
          subst h
          simp only [Option.some.injEq] at hi
          subst hi
          rcases selectInner_success fn nsp mi pods _ all all 0 c _ heq with
            ⟨a, hget, _, hipa, htm, hca⟩
          refine ⟨_, rfl, ⟨a, ?_, hipa⟩, htm, hca⟩
          simpa using hget
        · exact ih _ _ _ _ _ h i hi
      · exact ih _ _ _ _ _ h i hi

end FaasNetes

namespace FaasNetes

theorem atLimit_iff {ps : PodStatus} :
    atLimit ps = true ↔
      ∃ m, ps.maxInflight = some m ∧ m ≤ ps.activeConnections := by
  cases h : ps.maxInflight with
  | none => simp [atLimit, h]
  | some m => simp [atLimit, h, ge_iff_le]

/-! ### Claim theorems -/

/-- C4: `TryClaim` (`TryMarkPodBusy`) returns `false` when the key is absent
from the store; for a present record it returns `false` exactly when the
status is "busy" or the ceiling is set and the counter has reached it; and in
every case — including a `true` result — it leaves the store, hence the
record, unchanged (the mutating lines are commented out in the source). -/
theorem tryMarkPodBusy_spec (c : List PodStatus) (pn ip : String) :
    (tryMarkPodBusy c pn ip).2 = c ∧
    (load c (createKey pn ip) = none → (tryMarkPodBusy c pn ip).1 = false) ∧
    (∀ ps, load c (createKey pn ip) = some ps →
      ((tryMarkPodBusy c pn ip).1 = false ↔
        (ps.status = "busy" ∨
          ∃ m, ps.maxInflight = some m ∧ m ≤ ps.activeConnections))) := by
  refine ⟨?_, ?_, ?_⟩
  · cases hl : load c (createKey pn ip) with
    | none => simp [tryMarkPodBusy, hl]
    | some ps =>
      simp only [tryMarkPodBusy, hl]
      split <;> rfl
  · intro h
    simp [tryMarkPodBusy, h]
  · intro ps hl
    have hcond : (ps.status == "busy" || atLimit ps) = true ↔
        (ps.status = "busy" ∨
          ∃ m, ps.maxInflight = some m ∧ m ≤ ps.activeConnections) := by
      rw [Bool.or_eq_true, beq_iff_eq, atLimit_iff]
    simp only [tryMarkPodBusy, hl]
    by_cases hb : (ps.status == "busy" || atLimit ps) = true
    · rw [if_pos hb]
      exact ⟨fun _ => hcond.mp hb, fun _ => rfl⟩
    · rw [if_neg hb]
      exact ⟨fun hh => absurd hh (by simp), fun hc => absurd (hcond.mpr hc) hb⟩

/-- Witness for C4 at a concrete store: a busy pod is refused and the store
is unchanged. -/
theorem tryMarkPodBusy_spec_witness :
    (tryMarkPodBusy [⟨"p", "busy", "1.2.3.4", "f", "ns", 1, some 1⟩]
      "p" "1.2.3.4").1 = false ∧
    (tryMarkPodBusy [⟨"p", "busy", "1.2.3.4", "f", "ns", 1, some 1⟩]
      "p" "1.2.3.4").2 = [⟨"p", "busy", "1.2.3.4", "f", "ns", 1, some 1⟩] := by
  have h := tryMarkPodBusy_spec
    [⟨"p", "busy", "1.2.3.4", "f", "ns", 1, some 1⟩] "p" "1.2.3.4"
  exact ⟨(h.2.2 _ rfl).mpr (Or.inl rfl), h.1⟩

/-- C10: `MarkPodBusy` and `MarkPodIdle` on a pod with no record return a nil
error and leave the store untouched, and the POST /system/pod-idle handler
replies 200 for the unknown pod. -/
theorem markPod_missing_noop (c : List PodStatus) (pn ip : String)
    (h : load c (createKey pn ip) = none) :
    markPodBusy c pn ip = (none, c) ∧ markPodIdle c pn ip = (none, c) ∧
    makePodIdleHandler c pn ip = (200, c) := by
  refine ⟨?_, ?_, ?_⟩ <;>
    simp [markPodBusy, markPodIdle, makePodIdleHandler, h]

/-- Witness for C10 on an empty store. -/
theorem markPod_missing_noop_witness :
    markPodBusy [] "ghost" "10.0.0.9" = (none, []) ∧
    markPodIdle [] "ghost" "10.0.0.9" = (none, []) ∧
    makePodIdleHandler [] "ghost" "10.0.0.9" = (200, []) :=
  markPod_missing_noop [] "ghost" "10.0.0.9" rfl

/-- C3: on an existing record (with its ceiling set and consistently passed,
as every call site does), `Set("busy")` increments the counter by one and
re-evaluates the status against the ceiling, `Set("idle")` decrements clamped
at zero and stores "idle", `Set("reset")` zeroes the counter and stores
"idle", and any other literal is stored verbatim with the counter
unchanged. -/
theorem set_status_commands (c : List PodStatus) (cur : PodStatus)
    (pn ip f n : String) (m : Int)
    (h : load c (createKey pn ip) = some cur)
    (hm : cur.maxInflight = some m) :
    set c pn "busy" ip f n (some m) =
      some (storeEntry c
        { podName := pn,
          status := if cur.activeConnections + 1 ≥ m then "busy" else "idle",
          podIP := ip, function := f, nspace := n,
          activeConnections := cur.activeConnections + 1,
          maxInflight := some m }) ∧
    set c pn "idle" ip f n (some m) =
      some (storeEntry c
        { podName := pn, status := "idle", podIP := ip, function := f,
          nspace := n,
          activeConnections := max (cur.activeConnections - 1) 0,
          maxInflight := some m }) ∧
    set c pn "reset" ip f n (some m) =
      some (storeEntry c
        { podName := pn, status := "idle", podIP := ip, function := f,
          nspace := n, activeConnections := 0, maxInflight := some m }) ∧
    (∀ s, s ≠ "busy" → s ≠ "idle" → s ≠ "reset" →
      set c pn s ip f n (some m) =
        some (storeEntry c
          { podName := pn, status := s, podIP := ip, function := f,
            nspace := n, activeConnections := cur.activeConnections,
            maxInflight := some m })) := by
  refine ⟨?_, ?_, ?_, ?_⟩
  · rw [set_of_load_some h, setExisting_busy_eq cur pn ip f n m hm]
  · rw [set_of_load_some h, setExisting_idle]
  · rw [set_of_load_some h, setExisting_reset]
  · intro s h1 h2 h3
    rw [set_of_load_some h, setExisting_verbatim cur pn s ip f n (some m) h1 h2 h3]

/-- Witness for C3 at a concrete record with ceiling 2. -/
theorem set_status_commands_witness :
    set [⟨"p", "idle", "1.1.1.1", "f", "ns", 0, some 2⟩]
        "p" "busy" "1.1.1.1" "f" "ns" (some 2) =
      some (storeEntry [⟨"p", "idle", "1.1.1.1", "f", "ns", 0, some 2⟩]
        { podName := "p",
          status := if (0 : Int) + 1 ≥ 2 then "busy" else "idle",
          podIP := "1.1.1.1", function := "f", nspace := "ns",
          activeConnections := (0 : Int) + 1, maxInflight := some 2 }) :=
  (set_status_commands [⟨"p", "idle", "1.1.1.1", "f", "ns", 0, some 2⟩]
    ⟨"p", "idle", "1.1.1.1", "f", "ns", 0, some 2⟩
    "p" "1.1.1.1" "f" "ns" 2 rfl rfl).1

/-- C7 (code bug): the Go `Set` on a missing key evaluates
`0 >= *maxInflight` with no nil check; with a nil ceiling this dereferences a
nil pointer and panics (modelled as `none`), so the operation is not total,
contradicting the never-panics claim. -/
theorem set_missing_nil_ceiling_panics :
    set [] "p" "idle" "10.0.0.1" "figlet" "openfaas-fn" none = none ∧
    set [] "p" "idle" "10.0.0.1" "figlet" "openfaas-fn" (some 5) =
      some [⟨"p", "idle", "10.0.0.1", "figlet", "openfaas-fn", 0, some 5⟩] :=
  ⟨rfl, rfl⟩

/-- C6 counterexample: the sequence Set(idle), Set(busy), Set(busy), Set(idle)
with ceiling 1 leaves a record whose ceiling is set and whose counter (1) is
at the ceiling, yet whose stored status is "idle", refuting the claimed
equivalence. -/
theorem set_busy_iff_counterexample :
    applySeq "p" "1.1.1.1" "f" "ns" (some 1) []
        ["idle", "busy", "busy", "idle"] =
      some [⟨"p", "idle", "1.1.1.1", "f", "ns", 1, some 1⟩] ∧
    ¬ ((PodStatus.mk "p" "idle" "1.1.1.1" "f" "ns" 1 (some 1)).status =
          "busy" ↔
        ∃ m, (PodStatus.mk "p" "idle" "1.1.1.1" "f" "ns" 1 (some 1)).maxInflight
            = some m ∧
          m ≤ (PodStatus.mk "p" "idle" "1.1.1.1" "f" "ns" 1
            (some 1)).activeConnections) := by
  refine ⟨rfl, fun hiff => ?_⟩
  exact absurd (hiff.mpr ⟨1, rfl, by decide⟩) (by decide)

/-- C6 amended: the busy-iff-at-ceiling equivalence holds immediately after
each `Set("busy")` (ceiling passed consistently), while `Set("idle")` and
`Set("reset")` always store status "idle", even when the clamped counter
remains at or above the ceiling. -/
theorem set_status_ceiling_amended (c : List PodStatus) (cur : PodStatus)
    (pn ip f n : String) (m : Int)
    (h : load c (createKey pn ip) = some cur)
    (hm : cur.maxInflight = some m) :
    (∀ c2, set c pn "busy" ip f n (some m) = some c2 →
      ∃ r2, load c2 (createKey pn ip) = some r2 ∧
        r2.activeConnections = cur.activeConnections + 1 ∧
        (r2.status = "busy" ↔ m ≤ r2.activeConnections)) ∧
    (∀ c2 mi, set c pn "idle" ip f n mi = some c2 →
      ∃ r2, load c2 (createKey pn ip) = some r2 ∧ r2.status = "idle") ∧
    (∀ c2 mi, set c pn "reset" ip f n mi = some c2 →
      ∃ r2, load c2 (createKey pn ip) = some r2 ∧ r2.status = "idle" ∧
        r2.activeConnections = 0) := by
  refine ⟨?_, ?_, ?_⟩
  · intro c2 hset
    rw [set_of_load_some h, setExisting_busy_eq cur pn ip f n m hm] at hset
    injection hset with hset
    subst hset
    refine ⟨_, load_storeEntry_self c _, rfl, ?_⟩
    dsimp only
    by_cases hge : cur.activeConnections + 1 ≥ m
    · rw [if_pos hge]
      simpa using hge
    · rw [if_neg hge]
      exact ⟨fun hh => absurd hh (by decide), fun hh => absurd hh (by omega)⟩
  · intro c2 mi hset
    rw [set_of_load_some h, setExisting_idle] at hset
    injection hset with hset
    subst hset
    exact ⟨_, load_storeEntry_self c _, rfl⟩
  · intro c2 mi hset
    rw [set_of_load_some h, setExisting_reset] at hset
    injection hset with hset
    subst hset
    exact ⟨_, load_storeEntry_self c _, rfl, rfl⟩

/-- Witness for the amended C6: after Set(idle) on a record at the ceiling the
stored status is "idle". -/
theorem set_status_ceiling_amended_witness :
    ∃ r2, load (storeEntry [⟨"p", "busy", "1.1.1.1", "f", "ns", 3, some 1⟩]
        { podName := "p", status := "idle", podIP := "1.1.1.1",
          function := "f", nspace := "ns",
          activeConnections := max ((3 : Int) - 1) 0, maxInflight := some 1 })
      (createKey "p" "1.1.1.1") = some r2 ∧ r2.status = "idle" :=
  (set_status_ceiling_amended
    [⟨"p", "busy", "1.1.1.1", "f", "ns", 3, some 1⟩] _
    "p" "1.1.1.1" "f" "ns" 1 rfl rfl).2.1 _ (some 1) rfl

end FaasNetes

namespace FaasNetes

/-- C2 (spec-modelled): when Phase A produced no claim, `Select` performs a
non-blocking enqueue onto the per-function channel of capacity 10 — appending
a wrapper with max-wait 100 ms, retry-count 0, max-retries 10 and a reply
channel of capacity 1 — and fails immediately with queue-full when the channel
is at capacity, rather than returning the no-idle-pods error directly. -/
theorem selectPhaseB_spec (q : List QueuedRequest) (nowMs : Nat) :
    (q.length < queueCapacity →
      selectPhaseB none q nowMs =
        Except.ok (none, q ++ [wrapRequest nowMs])) ∧
    (queueCapacity ≤ q.length →
      selectPhaseB none q nowMs = Except.error "queue full") ∧
    queueCapacity = 10 ∧
    (wrapRequest nowMs).startTimeMs = nowMs ∧
    (wrapRequest nowMs).maxWaitMs = 100 ∧
    (wrapRequest nowMs).retryCount = 0 ∧
    (wrapRequest nowMs).maxRetries = 10 ∧
    (wrapRequest nowMs).replyCapacity = 1 := by
  refine ⟨?_, ?_, rfl, rfl, rfl, rfl, rfl, rfl⟩
  · intro h
    simp [selectPhaseB, tryEnqueue, h]
  · intro h
    simp [selectPhaseB, tryEnqueue, Nat.not_lt.mpr h]

/-- Witness for C2: an empty queue accepts the request; a queue of 10 is
refused with queue-full. -/
theorem selectPhaseB_spec_witness :
    selectPhaseB none [] 7 = Except.ok (none, [wrapRequest 7]) ∧
    selectPhaseB none (List.replicate 10 (wrapRequest 0)) 7 =
      Except.error "queue full" :=
  ⟨(selectPhaseB_spec [] 7).1 (by decide),
   (selectPhaseB_spec (List.replicate 10 (wrapRequest 0)) 7).2.1 (by decide)⟩

/-- C8 counterexample: the sequence Set(idle), Set(busy) on a record starting
at zero connections ends with counter 1, which exceeds the claimed bound
`max(busy - idle, 0) = 0` — the clamp at zero makes a leading decrement
lost. -/
theorem applySeq_clamp_counterexample :
    applySeq "p" "1.1.1.1" "f" "ns" (some 5)
        [⟨"p", "idle", "1.1.1.1", "f", "ns", 0, some 5⟩] ["idle", "busy"] =
      some [⟨"p", "idle", "1.1.1.1", "f", "ns", 1, some 5⟩] ∧
    ¬ ((PodStatus.mk "p" "idle" "1.1.1.1" "f" "ns" 1
          (some 5)).activeConnections ≤
        max (((["idle", "busy"].count "busy" : Nat) : Int) -
          ((["idle", "busy"].count "idle" : Nat) : Int)) 0) := by
  refine ⟨rfl, ?_⟩
  decide

/-- C8 amended: for any sequence of Set(busy)/Set(idle) on one key starting
from a record with zero connections, the final counter is non-negative, at
least busy-count minus idle-count, and at most the busy-count.  (The claimed
upper bound `max(busy - idle, 0)` fails when a decrement is clamped at zero;
see the counterexample.) -/
theorem applySeq_bounds_amended (c : List PodStatus) (r : PodStatus)
    (pn ip f n : String) (mi : Option Int) (cmds : List String)
    (hl : load c (createKey pn ip) = some r)
    (h0 : r.activeConnections = 0)
    (hall : ∀ cmd ∈ cmds, cmd = "busy" ∨ cmd = "idle") :
    ∃ c2 r2, applySeq pn ip f n mi c cmds = some c2 ∧
      load c2 (createKey pn ip) = some r2 ∧
      0 ≤ r2.activeConnections ∧
      (cmds.count "busy" : Int) - (cmds.count "idle" : Int) ≤
        r2.activeConnections ∧
      r2.activeConnections ≤ (cmds.count "busy" : Int) := by
  rcases applySeq_bounds_aux pn ip f n mi cmds c r hl (by omega) hall with
    ⟨c2, r2, h1, h2, h3, h4, h5⟩
  exact ⟨c2, r2, h1, h2, h3, by omega, by omega⟩

/-- Witness for the amended C8 on a concrete three-command sequence. -/
theorem applySeq_bounds_amended_witness :
    ∃ c2 r2, applySeq "p" "1.1.1.1" "f" "ns" (some 5)
        [⟨"p", "idle", "1.1.1.1", "f", "ns", 0, some 5⟩]
        ["busy", "busy", "idle"] = some c2 ∧
      load c2 (createKey "p" "1.1.1.1") = some r2 ∧
      0 ≤ r2.activeConnections ∧
      ((["busy", "busy", "idle"].count "busy" : Nat) : Int) -
        ((["busy", "busy", "idle"].count "idle" : Nat) : Int) ≤
        r2.activeConnections ∧
      r2.activeConnections ≤
        ((["busy", "busy", "idle"].count "busy" : Nat) : Int) :=
  applySeq_bounds_amended
    [⟨"p", "idle", "1.1.1.1", "f", "ns", 0, some 5⟩]
    ⟨"p", "idle", "1.1.1.1", "f", "ns", 0, some 5⟩
    "p" "1.1.1.1" "f" "ns" (some 5) ["busy", "busy", "idle"]
    rfl rfl (by decide)

/-- C5 counterexample: two failures of the claim as stated.  With
max_inflight = 0 the record created for a new endpoint has status "busy",
not "idle"; and with a snapshot IP containing the "-" key separator, the
`Set` for the second address lands on the composite key of the existing
record (key collision) and overwrites it, so the IP "9.9.9.9" of the snapshot
has no record after the prune. -/
theorem pruneByAddresses_claim_counterexample :
    (pruneByAddresses [] "f" "ns" [⟨"1.1.1.1", none⟩] 0 =
      some [⟨"1.1.1.1", "busy", "1.1.1.1", "f", "ns", 0, some 0⟩]) ∧
    (pruneByAddresses
        [⟨"a-1.1.1.1", "idle", "9.9.9.9", "f", "ns", 0, some 1⟩] "f" "ns"
        [⟨"9.9.9.9", none⟩, ⟨"1.1.1.1-9.9.9.9", some "a"⟩] 1 =
      some [⟨"a", "idle", "1.1.1.1-9.9.9.9", "f", "ns", 0, some 1⟩]) ∧
    ipInAddrs [⟨"9.9.9.9", none⟩, ⟨"1.1.1.1-9.9.9.9", some "a"⟩]
      "9.9.9.9" = true ∧
    foundPod [⟨"a", "idle", "1.1.1.1-9.9.9.9", "f", "ns", 0, some 1⟩]
      "f" "ns" "9.9.9.9" = false :=
  ⟨rfl, rfl, rfl, rfl⟩

/-- C5 amended: under the sync.Map key-uniqueness invariant, with
max_inflight ≥ 1 and no dash in any stored or snapshot IP (so composite keys
cannot collide), `PruneByAddresses(f, n, S, max_inflight)` leaves the set of
IPs of (f, n) records exactly equal to the snapshot IPs, every record stored
under a key absent before the call is idle at zero connections, and every
remaining (f, n) record has its IP in the snapshot. -/
theorem pruneByAddresses_amended (c : List PodStatus) (f n : String)
    (S : List EndpointAddress) (mi : Int)
    (hnd : KeysNodup c) (hdc : ∀ e ∈ c, dashFree e.podIP)
    (hds : ∀ a ∈ S, dashFree a.ip) (hmi : 1 ≤ mi) :
    ∃ c2, pruneByAddresses c f n S mi = some c2 ∧
      (∀ ip, fnIP c2 f n ip ↔ ipInAddrs S ip = true) ∧
      (∀ e ∈ c2, keyOf e ∉ c.map keyOf →
        e.status = "idle" ∧ e.activeConnections = 0) ∧
      (∀ e ∈ c2, e.function = f → e.nspace = n →
        ipInAddrs S e.podIP = true) := by
  rcases pruneByAddresses_spec c f n S mi hnd hdc hds with
    ⟨c2, h1, _, _, heq, hfresh⟩
  refine ⟨c2, h1, heq, hfresh hmi, ?_⟩
  intro e he hef hen
  exact (heq e.podIP).mp ⟨e, he, hef, hen, rfl⟩

/-- Witness for the amended C5: one stale record removed, one new endpoint
added idle at zero. -/
theorem pruneByAddresses_amended_witness :
    ∃ c2, pruneByAddresses
        [⟨"old", "busy", "10.0.0.2", "f", "ns", 4, some 5⟩] "f" "ns"
        [⟨"10.0.0.1", some "p1"⟩] 5 = some c2 ∧
      (∀ ip, fnIP c2 "f" "ns" ip ↔
        ipInAddrs [⟨"10.0.0.1", some "p1"⟩] ip = true) ∧
      (∀ e ∈ c2,
        keyOf e ∉ [(⟨"old", "busy", "10.0.0.2", "f", "ns", 4,
          some 5⟩ : PodStatus)].map keyOf →
        e.status = "idle" ∧ e.activeConnections = 0) ∧
      (∀ e ∈ c2, e.function = "f" → e.nspace = "ns" →
        ipInAddrs [⟨"10.0.0.1", some "p1"⟩] e.podIP = true) :=
  pruneByAddresses_amended
    [⟨"old", "busy", "10.0.0.2", "f", "ns", 4, some 5⟩] "f" "ns"
    [⟨"10.0.0.1", some "p1"⟩] 5
    (by decide) (by decide) (by decide) (by decide)

/-- C9 counterexample: with a snapshot IP containing the "-" key separator,
the first prune leaves only the collided record, and the second prune then
creates a record for "9.9.9.9" again — two consecutive runs do not agree, so
the operation is not idempotent as claimed (the model has no timestamp field,
so the difference is a genuinely new record). -/
theorem prune_idempotent_counterexample :
    (pruneByAddresses
        [⟨"a-1.1.1.1", "idle", "9.9.9.9", "f", "ns", 0, some 1⟩] "f" "ns"
        [⟨"9.9.9.9", none⟩, ⟨"1.1.1.1-9.9.9.9", some "a"⟩] 1 =
      some [⟨"a", "idle", "1.1.1.1-9.9.9.9", "f", "ns", 0, some 1⟩]) ∧
    (pruneByAddresses
        [⟨"a", "idle", "1.1.1.1-9.9.9.9", "f", "ns", 0, some 1⟩] "f" "ns"
        [⟨"9.9.9.9", none⟩, ⟨"1.1.1.1-9.9.9.9", some "a"⟩] 1 =
      some [⟨"a", "idle", "1.1.1.1-9.9.9.9", "f", "ns", 0, some 1⟩,
            ⟨"9.9.9.9", "idle", "9.9.9.9", "f", "ns", 0, some 1⟩]) ∧
    ([⟨"a", "idle", "1.1.1.1-9.9.9.9", "f", "ns", 0, some 1⟩,
      ⟨"9.9.9.9", "idle", "9.9.9.9", "f", "ns", 0, some 1⟩] ≠
        [(⟨"a", "idle", "1.1.1.1-9.9.9.9", "f", "ns", 0,
          some 1⟩ : PodStatus)]) :=
  ⟨rfl, rfl, by decide⟩

/-- C9 amended: under the sync.Map key-uniqueness invariant and with no dash
in any stored or snapshot IP, `PruneByAddresses` is idempotent: a second run
with the same snapshot returns the store unchanged (the model carries no
timestamp field, so this is equality of all remaining record data). -/
theorem prune_idempotent_amended (c c1 : List PodStatus) (f n : String)
    (S : List EndpointAddress) (mi : Int)
    (hnd : KeysNodup c) (hdc : ∀ e ∈ c, dashFree e.podIP)
    (hds : ∀ a ∈ S, dashFree a.ip)
    (h : pruneByAddresses c f n S mi = some c1) :
    pruneByAddresses c1 f n S mi = some c1 := by
  rcases pruneByAddresses_spec c f n S mi hnd hdc hds with
    ⟨c2, h1, _, _, heq, _⟩
  rw [h] at h1
  injection h1 with h1
  subst h1
  have hfil : c1.filter (fun e =>
      !(e.function == f && e.nspace == n &&
        !ipInAddrs (dedupAddrs S) e.podIP)) = c1 := by
    apply List.filter_eq_self.mpr
    intro e he
    cases hb1 : e.function == f with
    | false => simp [hb1]
    | true =>
      cases hb2 : e.nspace == n with
      | false => simp [hb2]
      | true =>
        have hip : ipInAddrs S e.podIP = true :=
          (heq e.podIP).mp ⟨e, he, beq_iff_eq.mp hb1, beq_iff_eq.mp hb2, rfl⟩
        have hip2 : ipInAddrs (dedupAddrs S) e.podIP = true :=
          ipIn_dedup_iff.mpr hip
        simp [hb1, hb2, hip2]
  have hall : ∀ a ∈ dedupAddrs S, foundPod c1 f n a.ip = true := by
    intro a ha
    exact foundPod_iff.mpr ((heq a.ip).mpr
      (ipIn_dedup_iff.mp (ipInAddrs_iff.mpr ⟨a, ha, rfl⟩)))
  show pruneLoop f n mi (c1.filter (fun e =>
      !(e.function == f && e.nspace == n &&
        !ipInAddrs (dedupAddrs S) e.podIP))) (dedupAddrs S) = some c1
  rw [hfil]
  exact pruneLoop_all_found f n mi (dedupAddrs S) c1 hall

/-- Witness for the amended C9: a prune that creates one record, rerun on its
own output. -/
theorem prune_idempotent_amended_witness :
    pruneByAddresses [⟨"p1", "idle", "10.0.0.1", "f", "ns", 0, some 3⟩]
      "f" "ns" [⟨"10.0.0.1", some "p1"⟩] 3 =
      some [⟨"p1", "idle", "10.0.0.1", "f", "ns", 0, some 3⟩] :=
  prune_idempotent_amended [] _ "f" "ns" [⟨"10.0.0.1", some "p1"⟩] 3
    (by decide) (by decide) (by decide) rfl

end FaasNetes

namespace FaasNetes

/-- C1: for every call to `Select`, the candidate set is exactly the pods of
`GetByFunction` that are idle, strictly under the ceiling and whose IP is in
the address list of the caller; the pick/probe/claim loop starts at most 3
iterations; and a successful return yields an index `i` with
`addresses[i].IP` equal to the IP of the chosen pod, the store holding the
record of that pod as updated by the `Set("busy")` of `MarkPodBusy` (counter
incremented by one) issued before returning. -/
theorem select_spec (probe : String → Bool) (picks : List Nat)
    (c : List PodStatus) (addrs : List EndpointAddress)
    (f n : String) (mi : Int) (out : SelectOutcome)
    (h : select probe picks c addrs f n mi = some out) :
    (∀ (pods : List PodStatus) (e : PodStatus),
      e ∈ filterIdlePodsForAddresses pods addrs mi ↔
        (e ∈ pods ∧ e.status = "idle" ∧ e.activeConnections < mi ∧
          ipInAddrs addrs e.podIP = true)) ∧
    (∀ (c2 : List PodStatus) (e : PodStatus),
      e ∈ getByFunction c2 f n ↔ (e ∈ c2 ∧ e.function = f ∧ e.nspace = n)) ∧
    out.iters ≤ 3 ∧
    (∀ i, out.index = some i →
      ∃ p pre, out.chosen = some p ∧
        (∃ a, addrs.get? i = some a ∧ a.ip = p.podIP) ∧
        load out.cBefore (createKey p.podName p.podIP) = some pre ∧
        load out.cache (createKey p.podName p.podIP) =
          some (setExisting pre p.podName "busy" p.podIP pre.function
            pre.nspace pre.maxInflight) ∧
        (setExisting pre p.podName "busy" p.podIP pre.function pre.nspace
          pre.maxInflight).activeConnections =
          pre.activeConnections + 1) := by
  have hsel : ∃ c1, pruneByAddresses c f n addrs mi = some c1 ∧
      selectLoop probe f n mi (getByFunction c1 f n) addrs picks c1
        (filterIdlePodsForAddresses (getByFunction c1 f n) addrs mi) 3 0 =
        some out := by
    cases hp : pruneByAddresses c f n addrs mi with
    | none =>
      simp only [select, hp] at h
      exact Option.noConfusion h
    | some c1 =>
      simp only [select, hp] at h
      exact ⟨c1, rfl, h⟩
  rcases hsel with ⟨c1, _, hloop⟩
  refine ⟨?_, ?_, ?_, ?_⟩
  · intro pods e
    simp only [filterIdlePodsForAddresses, List.mem_filter,
      Bool.and_eq_true, beq_iff_eq, decide_eq_true_eq]
    tauto
  · intro c2 e
    simp only [getByFunction, List.mem_filter, Bool.and_eq_true, beq_iff_eq]
  · simpa using selectLoop_iters probe f n mi _ addrs 3 picks c1 _ 0 out hloop
  · intro i hi
    rcases selectLoop_success probe f n mi _ addrs 3 picks c1 _ 0 out
      hloop i hi with ⟨p, hch, ⟨a, hga, hipa⟩, htm, hca⟩
    rcases tryMark_true_load htm with ⟨pre, hpre⟩
    refine ⟨p, pre, hch, ⟨a, hga, hipa⟩, hpre, ?_, ?_⟩
    · rw [hca, markPodBusy_snd hpre]
      exact load_storeEntry_self _ _
    · exact setExisting_busy_ac pre p.podName p.podIP pre.function
        pre.nspace pre.maxInflight

/-- Witness for C1: a single healthy idle pod is selected at index 0 and its
record is claimed busy (counter 0 to 1). -/
theorem select_spec_witness :
    ∃ out, select (fun _ => true) [0]
        [⟨"p1", "idle", "10.0.0.1", "f", "ns", 0, some 5⟩]
        [⟨"10.0.0.1", some "p1"⟩] "f" "ns" 5 = some out ∧
      out.iters ≤ 3 ∧
      ∃ p pre, out.chosen = some p ∧
        (∃ a, [(⟨"10.0.0.1", some "p1"⟩ : EndpointAddress)].get? 0 =
          some a ∧ a.ip = p.podIP) ∧
        load out.cBefore (createKey p.podName p.podIP) = some pre ∧
        load out.cache (createKey p.podName p.podIP) =
          some (setExisting pre p.podName "busy" p.podIP pre.function
            pre.nspace pre.maxInflight) ∧
        (setExisting pre p.podName "busy" p.podIP pre.function pre.nspace
          pre.maxInflight).activeConnections =
          pre.activeConnections + 1 := by
  have h := select_spec (fun _ => true) [0]
    [⟨"p1", "idle", "10.0.0.1", "f", "ns", 0, some 5⟩]
    [⟨"10.0.0.1", some "p1"⟩] "f" "ns" 5 _ rfl
  exact ⟨_, rfl, h.2.2.1, h.2.2.2 0 rfl⟩

end FaasNetes
